import Mathlib

/-!
Shallow embedding of the privacy-sexy script-generation engine: the text
pipes, formatter and global-variable substitution of `src/util.rs`, the data
model of `src/collection.rs`, and the resolution pass that the project
documentation describes, together with theorems about their behaviour.
Strings are modelled as `String` / `List Char`; the regex-based text
transforms of `src/util.rs` are hand-compiled into explicit scanners that
follow the leftmost-first, greedy/lazy semantics of the patterns they
replace.
-/

namespace PrivacySexy

/-- Apostrophe character (U+0027), used by the here-string transform. -/
def apos : Char := Char.ofNat 39

/-- Backtick character (U+0060), used by the line-continuation transform. -/
def btick : Char := Char.ofNat 96

/-- Whitespace test shared by the regex class for whitespace and by
`str::trim` (both are Unicode-whitespace based). -/
def isWs (c : Char) : Bool := c.isWhitespace

/-- Model of Rust `str::trim` on a character list: remove whitespace from
both ends. -/
def trimList (l : List Char) : List Char :=
  ((l.dropWhile isWs).reverse.dropWhile isWs).reverse

/-- Split on line breaks exactly as the regex alternation of a CRLF, a CR or
a LF does (leftmost-first, so a CRLF counts as a single separator: after a
CR, an immediately following LF is consumed with it). -/
def splitLineBreaks : List Char → List (List Char)
  | [] => [[]]
  | c :: rest =>
    if c = '\r' then
      [] :: splitLineBreaks (if rest.head? = some '\n' then rest.tail else rest)
    else if c = '\n' then
      [] :: splitLineBreaks rest
    else
      match splitLineBreaks rest with
      | [] => [[c]]
      | l :: ls => (c :: l) :: ls
termination_by s => s.length
decreasing_by
  all_goals simp only [List.length_cons]
  · split
    · simp only [List.length_tail]; omega
    · omega
  · omega
  · omega

/-- Model of Rust `String::replace` with a single-character pattern: each
occurrence of `pat` becomes `rep`, every other character is kept. -/
def replaceChar (pat : Char) (rep : List Char) : List Char → List Char
  | [] => []
  | c :: rest => (if c = pat then rep else [c]) ++ replaceChar pat rep rest

/-- The escape sequence that the `escapeDoubleQuotes` pipe substitutes for
each double quote (source literal `"^""`). -/
def escSeq : List Char := ['"', '^', '"', '"']

/-- Final step of the `inlinePowerShell` pipe: split on line breaks, trim
every line, drop the empty ones and join the rest with `"; "`. -/
def mergeLines (t : List Char) : List Char :=
  List.intercalate [';', ' ']
    (((splitLineBreaks t).map trimList).filter (fun l => !l.isEmpty))

/-- Start index of the last `#>` closing marker before the first line feed.
The greedy dot-star of the block-comment pattern backtracks to the last
possible closing marker on the line; the dot matches a CR but not a LF. -/
def lastHashGt : List Char → Option Nat
  | [] => none
  | '\n' :: _ => none
  | '#' :: '>' :: rest =>
    match lastHashGt rest with
    | some k => some (k + 2)
    | none => some 0
  | _ :: rest => (lastHashGt rest).map (· + 1)

/-- Match the tail of a block comment: `s` is the input just after a `<#`.
The greedy whitespace-star takes the maximal whitespace run; handing
characters back cannot create a match (the handed-back characters are
whitespace while the closing marker needs a `#`, and a line feed inside the
run only shortens the searchable line), so only the maximal run is tried.
Returns the comment body and the input after the closing `#>`. -/
def matchBlockComment (s : List Char) : Option (List Char × List Char) :=
  let rem := s.dropWhile isWs
  match lastHashGt rem with
  | some k => some (rem.take k, rem.drop (k + 2))
  | none => none

/-- Comment normalization of `inlinePowerShell`, hand-compiled from the
alternation of a block comment and a line comment: a block comment
`<#` … `#>` is rewritten to `<# trimmed-body #>`, a line comment `#` plus
trailing whitespace and the rest of the line is deleted (the replacement
callback returns the empty string when the block-comment group is absent).
The fuel is one unit per consumed input character. -/
def normalizeCommentsF : Nat → List Char → List Char
  | 0, s => s
  | _ + 1, [] => []
  | fuel + 1, '<' :: '#' :: rest =>
    match matchBlockComment rest with
    | some (g, after) =>
      ('<' :: '#' :: ' ' :: trimList g) ++ (' ' :: '#' :: '>' :: normalizeCommentsF fuel after)
    | none => '<' :: normalizeCommentsF fuel ('#' :: rest)
  | fuel + 1, '#' :: rest =>
    normalizeCommentsF fuel ((rest.dropWhile isWs).dropWhile (fun c => c ≠ '\n'))
  | fuel + 1, c :: rest => c :: normalizeCommentsF fuel rest

/-- Comment-normalization pass over a whole input. -/
def normalizeComments (s : List Char) : List Char := normalizeCommentsF s.length s

/-- The two quote characters the here-string pattern accepts. -/
def isQuote (c : Char) : Bool := c = apos || c = '"'

/-- Recognize the end of a here-string at the head of the input: a line
break (CRLF preferred over CR over LF, as in the pattern's alternation)
followed by a quote and a `@`. Returns the input after the match. -/
def termPrefix? : List Char → Option (List Char)
  | '\r' :: '\n' :: q :: '@' :: t => if isQuote q then some t else none
  | '\r' :: q :: '@' :: t => if isQuote q then some t else none
  | '\n' :: q :: '@' :: t => if isQuote q then some t else none
  | _ => none

/-- Find the earliest here-string terminator in the input (the body group
of the pattern is lazy); returns the body part before it and the input
after it. -/
def findTerm : List Char → Option (List Char × List Char)
  | [] => none
  | c :: rest =>
    match termPrefix? (c :: rest) with
    | some after => some ([], after)
    | none =>
      match findTerm rest with
      | some p => some (c :: p.1, p.2)
      | none => none

/-- Lazy, at-least-one-character here-string body followed by the earliest
terminator. -/
def hereContent : List Char → Option (List Char × List Char)
  | [] => none
  | c :: w => (findTerm w).map (fun p => (c :: p.1, p.2))

/-- Try the here-string opening at whitespace-star length `len`: the next
characters must be a line break (CRLF preferred; on failure after a CRLF
the engine backtracks to a lone CR, leaving the LF to the body). -/
def tryHereAt (s : List Char) (len : Nat) : Option (List Char × List Char) :=
  match s.drop len with
  | '\r' :: '\n' :: v =>
    match hereContent v with
    | some r => some r
    | none => hereContent ('\n' :: v)
  | '\r' :: v => hereContent v
  | '\n' :: v => hereContent v
  | _ => none

/-- Backtrack the greedy whitespace-star from the maximal run downwards,
exactly as the engine hands characters back until the line-break token
matches. -/
def hereDescend (s : List Char) : Nat → Option (List Char × List Char)
  | 0 => tryHereAt s 0
  | len + 1 =>
    match tryHereAt s (len + 1) with
    | some r => some r
    | none => hereDescend s len

/-- Match the tail of a here-string: `s` is the input just after the `@`
and its opening quote. -/
def matchHereString (s : List Char) : Option (List Char × List Char) :=
  hereDescend s (s.takeWhile isWs).length

/-- Build the single-line replacement of a here-string with opening quote
`q`, from the replacement callback of the source: quotes inside the body
are escaped and the body's lines are joined with an explicit line-break
token, all wrapped in the chosen quote. -/
def hereReplacement (q : Char) (content : List Char) : List Char :=
  let quotes : Char := if q = apos then apos else '"'
  let escaped : List Char := if q = apos then [apos, apos] else [btick, '"']
  let sep : List Char :=
    if q = apos then [apos, '+', '"', btick, 'r', btick, 'n', '"', '+', apos]
    else [btick, 'r', btick, 'n']
  quotes :: (List.intercalate sep (splitLineBreaks (replaceChar quotes escaped content))) ++ [quotes]

/-- Here-string conversion pass of `inlinePowerShell`, hand-compiled from
its pattern. The fuel is one unit per consumed input character. -/
def convertHereF : Nat → List Char → List Char
  | 0, s => s
  | _ + 1, [] => []
  | fuel + 1, '@' :: c :: rest =>
    if isQuote c then
      match matchHereString rest with
      | some p => hereReplacement c p.1 ++ convertHereF fuel p.2
      | none => '@' :: convertHereF fuel (c :: rest)
    else
      '@' :: convertHereF fuel (c :: rest)
  | fuel + 1, c :: rest => c :: convertHereF fuel rest

/-- Here-string conversion over a whole input. -/
def convertHereStrings (s : List Char) : List Char := convertHereF s.length s

/-- Backtick line-continuation merge of `inlinePowerShell`: one or more
spaces, a backtick and a whitespace run containing at least one line break
collapse to a single space. The fuel is one unit per consumed input
character. -/
def mergeBackticksF : Nat → List Char → List Char
  | 0, s => s
  | _ + 1, [] => []
  | fuel + 1, ' ' :: rest =>
    match rest.dropWhile (fun c => c = ' ') with
    | c :: r2 =>
      if c = btick && ((r2.takeWhile isWs).any (fun x => x = '\n' || x = '\r')) then
        ' ' :: mergeBackticksF fuel (r2.dropWhile isWs)
      else
        ' ' :: mergeBackticksF fuel rest
    | [] => ' ' :: mergeBackticksF fuel rest
  | fuel + 1, c :: rest => c :: mergeBackticksF fuel rest

/-- Backtick line-continuation merge over a whole input. -/
def mergeBackticks (s : List Char) : List Char := mergeBackticksF s.length s

/-- The `inlinePowerShell` pipe: normalize comments, convert here-strings,
merge backtick-continued lines, then join all remaining non-empty trimmed
lines with `"; "`. -/
def inlinePowerShellList (t : List Char) : List Char :=
  mergeLines (mergeBackticks (convertHereStrings (normalizeComments t)))

/-- The pipe dispatcher of `src/util.rs` (`piper`) on character lists: the
two known pipes transform the text, any other pipe name passes the text
through unchanged. -/
def piperList (pipe : String) (text : List Char) : List Char :=
  match pipe with
  | "escapeDoubleQuotes" => replaceChar '"' escSeq text
  | "inlinePowerShell" => inlinePowerShellList text
  | _ => text

/-- The pipe dispatcher on strings. -/
def piper (pipe text : String) : String := String.mk (piperList pipe text.data)

/-- Boolean prefix test on character lists. -/
def pfxOf : List Char → List Char → Bool
  | [], _ => true
  | _ :: _, [] => false
  | p :: ps, c :: cs => p == c && pfxOf ps cs

/-- Model of Rust `String::replace` with a string pattern: leftmost,
non-overlapping occurrences of `pat` become `rep`. The three global
placeholder patterns it is used with are all non-empty; an empty pattern
passes the input through. -/
def replaceAll (pat rep : List Char) : List Char → List Char
  | [] => []
  | c :: t =>
    if h : ((!pat.isEmpty) && pfxOf pat (c :: t)) = true then
      rep ++ replaceAll pat rep ((c :: t).drop pat.length)
    else
      c :: replaceAll pat rep t
termination_by s => s.length
decreasing_by
  all_goals simp only [List.length_drop, List.length_cons]
  · cases pat with
    | nil => simp at h
    | cons p ps => simp only [List.length_cons]; omega
  · omega

/-- The literal spelling of the date placeholder. -/
def datePlaceholder : List Char := "\x7b\x7b $date \x7d\x7d".data

/-- The literal spelling of the homepage placeholder. -/
def homepagePlaceholder : List Char := "\x7b\x7b $homepage \x7d\x7d".data

/-- The literal spelling of the version placeholder. -/
def versionPlaceholder : List Char := "\x7b\x7b $version \x7d\x7d".data

/-- Global-variable substitution of `src/util.rs` (`parse_start_end`).
The current date and the package homepage and version are read from
external collaborators (the system clock and `Cargo.toml`), so they are
arguments here; each global placeholder is then replaced in turn by
`String::replace`, date first, then homepage, then version. -/
def parse_start_end (date homepage version : String) (code_string : String) : String :=
  String.mk (replaceAll versionPlaceholder version.data
    (replaceAll homepagePlaceholder homepage.data
      (replaceAll datePlaceholder date.data code_string.data)))

/-- Modelled from the spec: the `OS` enum (`crate::OS`) used by the
formatter and the resolution pass is declared outside `src/`; the spec
only distinguishes the Windows-style target from the others. -/
inductive OS
  | windows
  | linux
  | macOS
  deriving DecidableEq, Repr

/-- Model of Rust's center-pad format specifier (the `{:-^60}` fields of
`beautify`): pad `s` with `fill` up to `width` characters, extra padding
going to the right. -/
def fmtCenter (fill : Char) (width : Nat) (s : String) : String :=
  if width ≤ s.length then s
  else
    String.mk (List.replicate ((width - s.length) / 2) fill) ++ s ++
      String.mk (List.replicate ((width - s.length) - (width - s.length) / 2) fill)

/-- The formatter of `src/util.rs` (`beautify`): wraps the code string in
comment banners and adds an echo call; the comment marker is `::` on the
Windows target and `#` otherwise, and the name gets a `" (revert)"` suffix
in revert mode. -/
def beautify (code_string : String) (name : String) (os : OS) (revert : Bool) : String :=
  let name := if revert then name ++ " (revert)" else name
  match os with
  | OS.windows =>
    ":: " ++ fmtCenter '-' 60 "" ++ "\n:: " ++ fmtCenter '-' 60 name ++ "\n:: " ++
      fmtCenter '-' 60 "" ++ "\necho --- " ++ name ++ "\n" ++ code_string ++ "\n:: " ++
      fmtCenter '-' 60 ""
  | _ =>
    "# " ++ fmtCenter '-' 60 "" ++ "\n# " ++ fmtCenter '-' 60 name ++ "\n# " ++
      fmtCenter '-' 60 "" ++ "\necho --- " ++ name ++ "\n" ++ code_string ++ "\n# " ++
      fmtCenter '-' 60 ""

/-- Escapes accepted by the pattern syntax the dispatcher relies on: the
named character classes and control escapes it uses, or any punctuation
escape. -/
def okEscape (c : Char) : Bool :=
  (['s', 'S', 'd', 'D', 'w', 'W', 'r', 'n', 't', 'f', 'v', 'a', 'A', 'b', 'B', 'z'].contains c)
    || !c.isAlphanum

/-- Consume an optional quantifier (with an optional lazy marker) after an
atom. -/
def reQuant : List Char → List Char
  | '*' :: '?' :: r => r
  | '+' :: '?' :: r => r
  | '?' :: '?' :: r => r
  | '*' :: r => r
  | '+' :: r => r
  | '?' :: r => r
  | r => r

/-- Validate the body of a character class up to its closing bracket. -/
def reClassBody : List Char → Option (List Char)
  | ']' :: r => some r
  | '\\' :: c :: r => if okEscape c then reClassBody r else none
  | '\\' :: [] => none
  | [] => none
  | _ :: r => reClassBody r

/-- Validate a character class after its opening bracket (must be
non-empty and closed). -/
def reClass : List Char → Option (List Char)
  | ']' :: _ => none
  | '^' :: ']' :: _ => none
  | s => reClassBody s

mutual

/-- Validate an alternation; stops at the end of the input or before an
unmatched closing parenthesis. -/
def reAlt : Nat → List Char → Option (List Char)
  | 0, _ => none
  | fuel + 1, s =>
    match reConcat fuel s with
    | none => none
    | some ('|' :: r) => reAlt fuel r
    | some r => some r

/-- Validate a concatenation of quantified atoms. -/
def reConcat : Nat → List Char → Option (List Char)
  | 0, _ => none
  | fuel + 1, s =>
    match s with
    | [] => some []
    | ')' :: r => some (')' :: r)
    | '|' :: r => some ('|' :: r)
    | _ =>
      match reAtom fuel s with
      | none => none
      | some r => reConcat fuel (reQuant r)

/-- Validate a single atom: a group, a class, an escape or a literal
character; a dangling quantifier or stray brace is rejected. -/
def reAtom : Nat → List Char → Option (List Char)
  | 0, _ => none
  | fuel + 1, s =>
    match s with
    | '(' :: '?' :: ':' :: r =>
      match reAlt fuel r with
      | some (')' :: r2) => some r2
      | _ => none
    | '(' :: '?' :: _ => none
    | '(' :: r =>
      match reAlt fuel r with
      | some (')' :: r2) => some r2
      | _ => none
    | '[' :: r => reClass r
    | '\\' :: c :: r => if okEscape c then some r else none
    | '\\' :: [] => none
    | [] => none
    | c :: r =>
      if c = '*' || c = '+' || c = '?' || c = '|' || c = ')' || c = '\x7b' || c = '\x7d' then
        none
      else
        some r

end

/-- Syntactic validity of a pattern: the whole input must parse as one
alternation. -/
def regexPatternValid (p : String) : Bool :=
  match reAlt (2 * p.length + 8) p.data with
  | some [] => true
  | _ => false

/-- The comment-normalization pattern literal of `piper`. -/
def commentPat : String := "<#\\s*(.*)#>|#\\s*(.*)"

/-- The here-string pattern literal of `piper`. -/
def hereStringPat : String :=
  "@([" ++ String.mk [apos] ++ "\"])\\s*(?:\\r\\n|\\r|\\n)((.|\\n|\\r)+?)(\\r\\n|\\r|\\n)[" ++
    String.mk [apos] ++ "\"]@"

/-- The line-break pattern literal of `piper` (used twice: inside the
here-string replacement callback and for the final line merge). -/
def lineBreakPat : String := "\\r\\n|\\r|\\n"

/-- The backtick line-continuation pattern literal of `piper`. -/
def backtickPat : String := " +" ++ String.mk [btick] ++ "\\s*(?:\\r\\n|\\r|\\n)\\s*"

/-- Model of `Regex::new(..).unwrap()`: compilation succeeds exactly when
the pattern is syntactically valid; `none` is the panic of `unwrap`. -/
def regexNew (pat : String) : Option String :=
  if regexPatternValid pat then some pat else none

/-- The pipe dispatcher with its panic sources made explicit: every
`Regex::new(...).unwrap()` of the source becomes a compilation step that
fails exactly when its fixed pattern literal is rejected. -/
def piperChecked (pipe : String) (text : List Char) : Option (List Char) :=
  match pipe with
  | "escapeDoubleQuotes" => some (replaceChar '"' escSeq text)
  | "inlinePowerShell" =>
    match regexNew commentPat with
    | none => none
    | some _ =>
      let t := normalizeComments text
      match regexNew hereStringPat, regexNew lineBreakPat with
      | some _, some _ =>
        let t := convertHereStrings t
        match regexNew backtickPat with
        | none => none
        | some _ =>
          let t := mergeBackticks t
          match regexNew lineBreakPat with
          | none => none
          | some _ => some (mergeLines t)
      | _, _ => none
  | _ => some text

/-- Documentation URLs (`DocumentationUrlsData` of `src/collection.rs`). -/
inductive DocumentationUrlsData
  | vecStrings : List String → DocumentationUrlsData
  | string : String → DocumentationUrlsData
  deriving Repr

/-- Recommendation level (`Recommend` of `src/collection.rs`): `standard`
or `strict`. -/
inductive Recommend
  | standard
  | strict
  deriving DecidableEq, Repr

/-- Function parameter declaration (`ParameterDefinitionData`). -/
structure ParameterDefinitionData where
  name : String
  optional : Option Bool
  deriving Repr

/-- A single function call (`FunctionCallData`); the source's optional
YAML parameter mapping is modelled as an association list of string keys
and values (absent mapping as the empty list). -/
structure FunctionCallData where
  function : String
  parameters : List (String × String)
  deriving Repr

/-- One call or an ordered list of calls (`FunctionCallsData`). -/
inductive FunctionCallsData
  | vecFunctionCallData : List FunctionCallData → FunctionCallsData
  | functionCallData : FunctionCallData → FunctionCallsData
  deriving Repr

/-- A reusable function (`FunctionData`). -/
structure FunctionData where
  name : String
  code : Option String
  revert_code : Option String
  call : Option FunctionCallsData
  parameters : Option (List ParameterDefinitionData)
  deriving Repr

/-- A script (`ScriptData`). -/
structure ScriptData where
  name : String
  code : Option String
  revert_code : Option String
  call : Option FunctionCallsData
  docs : Option DocumentationUrlsData
  recommend : Option Recommend
  deriving Repr

/-- The scripting definition (`ScriptingDefinitionData`). -/
structure ScriptingDefinitionData where
  language : String
  file_extension : Option String
  start_code : String
  end_code : String
  deriving Repr

mutual

/-- A category (`CategoryData`): children, name, documentation. -/
inductive CategoryData
  | mk : List CategoryOrScriptData → String → Option DocumentationUrlsData → CategoryData

/-- An untagged child: a category or a script (`CategoryOrScriptData`). -/
inductive CategoryOrScriptData
  | categoryData : CategoryData → CategoryOrScriptData
  | scriptData : ScriptData → CategoryOrScriptData

end

/-- The children of a category. -/
def CategoryData.children : CategoryData → List CategoryOrScriptData
  | CategoryData.mk c _ _ => c

/-- The name of a category. -/
def CategoryData.category : CategoryData → String
  | CategoryData.mk _ n _ => n

/-- The root collection (`CollectionData`). -/
structure CollectionData where
  os : String
  scripting : ScriptingDefinitionData
  actions : List CategoryData
  functions : Option (List FunctionData)

/-- Modelled from the spec: the error taxonomy of the resolution pass
(spec section 7); the concrete error enum is declared outside `src/`. -/
inductive ResolveError
  | function : String → ResolveError
  | parameter : String → ResolveError
  | callCode : String → ResolveError
  deriving DecidableEq, Repr

/-- Modelled from the spec: the severity ordering of recommendation
levels — `strict` is more aggressive than `standard`. -/
def Recommend.severity : Recommend → Nat
  | Recommend.standard => 0
  | Recommend.strict => 1

/-- A level is at least as conservative as the filter level when it is no
more aggressive than it (spec section 3). -/
def Recommend.atLeastAsConservativeAs (r f : Recommend) : Bool :=
  decide (r.severity ≤ f.severity)

/-- Drop leading whitespace. -/
def eatWsL (s : List Char) : List Char := s.dropWhile isWs

/-- Characters allowed in parameter and pipe names (alphanumeric only). -/
def isIdentChar (c : Char) : Bool := c.isAlphanum

/-- Modelled from the spec: parse the whitespace-tolerant pipe chain and
closing braces of a placeholder, returning the pipe names in order. -/
def parsePipes : Nat → List Char → Option (List String × List Char)
  | 0, _ => none
  | _ + 1, '\x7d' :: '\x7d' :: r => some ([], r)
  | fuel + 1, '|' :: r =>
    let r2 := eatWsL r
    let pn := r2.takeWhile isIdentChar
    if pn.isEmpty then none
    else
      match parsePipes fuel (eatWsL (r2.dropWhile isIdentChar)) with
      | some p => some (String.mk pn :: p.1, p.2)
      | none => none
  | _, _ => none

/-- Modelled from the spec: recognize a placeholder for parameter `pname`
at the head of the input — double open braces, whitespace-tolerant dollar
name, an optional pipe chain, double close braces (spec sections 4.4 and
its whitespace-tolerance requirement). -/
def matchPlaceholderFor (pname : List Char) (s : List Char) : Option (List String × List Char) :=
  match s with
  | '\x7b' :: '\x7b' :: r =>
    match eatWsL r with
    | '$' :: r2 =>
      let nm := r2.takeWhile isIdentChar
      if nm == pname && !nm.isEmpty then
        parsePipes (r2.length + 1) (eatWsL (r2.dropWhile isIdentChar))
      else none
    | _ => none
  | _ => none

/-- Modelled from the spec: replace every placeholder occurrence of the
parameter by the argument value with the pipe chain applied left to right
(via the pipe dispatcher); replacements are not rescanned. Fuel is one
unit per consumed input character. -/
def substOccF (pname value : List Char) : Nat → List Char → List Char
  | 0, s => s
  | _ + 1, [] => []
  | fuel + 1, c :: rest =>
    match matchPlaceholderFor pname (c :: rest) with
    | some p =>
      (p.1.foldl (fun acc pn => piperList pn acc) value) ++ substOccF pname value fuel p.2
    | none => c :: substOccF pname value fuel rest

/-- Placeholder substitution over a whole body. -/
def substOcc (pname value s : List Char) : List Char := substOccF pname value s.length s

/-- Modelled from the spec: recognize the opening marker of an optional
parameter's conditional block; the spec fixes only that it is a
with-expression naming the parameter, so the marker is spelled
with-dollar-name between double braces, whitespace-tolerant. -/
def matchWithOpen (pname : List Char) (s : List Char) : Option (List Char) :=
  match s with
  | '\x7b' :: '\x7b' :: r =>
    let r2 := eatWsL r
    if pfxOf "with".data r2 then
      match eatWsL (r2.drop 4) with
      | '$' :: r3 =>
        let nm := r3.takeWhile isIdentChar
        if nm == pname && !nm.isEmpty then
          match eatWsL (r3.dropWhile isIdentChar) with
          | '\x7d' :: '\x7d' :: rest => some rest
          | _ => none
        else none
      | _ => none
    else none
  | _ => none

/-- Modelled from the spec: recognize the end marker of a conditional
block, spelled end between double braces, whitespace-tolerant. -/
def matchEndMarker : List Char → Option (List Char)
  | '\x7b' :: '\x7b' :: r =>
    let r2 := eatWsL r
    if pfxOf "end".data r2 then
      match eatWsL (r2.drop 3) with
      | '\x7d' :: '\x7d' :: rest => some rest
      | _ => none
    else none
  | _ => none

/-- Find the nearest end marker, returning the block's inner content and
the input after the marker. -/
def findEndMarker : List Char → Option (List Char × List Char)
  | [] => none
  | c :: rest =>
    match matchEndMarker (c :: rest) with
    | some after => some ([], after)
    | none =>
      match findEndMarker rest with
      | some p => some (c :: p.1, p.2)
      | none => none

/-- Modelled from the spec: rewrite each placeholder referencing the
current value (a dot) inside a kept block to the parameter's own
placeholder, so the parameter's substitution pass can still apply pipes.
Fuel is one unit per consumed input character. -/
def rewriteCurrentF (pname : List Char) : Nat → List Char → List Char
  | 0, s => s
  | _ + 1, [] => []
  | fuel + 1, '\x7b' :: '\x7b' :: r =>
    match eatWsL r with
    | '.' :: r2 =>
      if (match r2 with
          | c :: _ => isWs c || c = '|' || c = '\x7d'
          | [] => false) then
        '\x7b' :: '\x7b' :: ' ' :: '$' :: (pname ++ rewriteCurrentF pname fuel r2)
      else '\x7b' :: rewriteCurrentF pname fuel ('\x7b' :: r)
    | _ => '\x7b' :: rewriteCurrentF pname fuel ('\x7b' :: r)
  | fuel + 1, c :: rest => c :: rewriteCurrentF pname fuel rest

/-- Current-value rewrite over a block body. -/
def rewriteCurrent (pname s : List Char) : List Char := rewriteCurrentF pname s.length s

/-- Modelled from the spec: process the conditional blocks of an optional
parameter — with a supplied value the markers are stripped and the inner
content kept (current-value placeholders rewritten), without one the whole
block is deleted; an unterminated opening marker is left as literal text.
Fuel is one unit per consumed input character. -/
def processWithBlocksF (pname : List Char) (hasValue : Bool) : Nat → List Char → List Char
  | 0, s => s
  | _ + 1, [] => []
  | fuel + 1, c :: rest =>
    match matchWithOpen pname (c :: rest) with
    | some afterOpen =>
      match findEndMarker afterOpen with
      | some p =>
        if hasValue then rewriteCurrent pname p.1 ++ processWithBlocksF pname hasValue fuel p.2
        else processWithBlocksF pname hasValue fuel p.2
      | none => c :: processWithBlocksF pname hasValue fuel rest
    | none => c :: processWithBlocksF pname hasValue fuel rest

/-- Conditional-block processing over a whole body. -/
def processWithBlocks (pname : List Char) (hasValue : Bool) (s : List Char) : List Char :=
  processWithBlocksF pname hasValue s.length s

/-- Look up an argument value by parameter name. -/
def lookupArg (args : List (String × String)) (name : String) : Option String :=
  (args.find? (fun kv => kv.1 == name)).map (fun kv => kv.2)

/-- Modelled from the spec: the template substitution engine (spec section
4.4) — per declared parameter in declaration order, each substitution
building on the previous body: a required parameter without an argument is
a `parameter` error, with one its placeholders are substituted with pipes
applied; an optional parameter has its conditional blocks processed and,
when a value is supplied, its placeholders substituted as well. -/
def substituteAll : List ParameterDefinitionData → List (String × String) → List Char →
    Except ResolveError (List Char)
  | [], _, body => Except.ok body
  | p :: rest, args, body =>
    if p.optional = some true then
      match lookupArg args p.name with
      | some v =>
        substituteAll rest args (substOcc p.name.data v.data (processWithBlocks p.name.data true body))
      | none => substituteAll rest args (processWithBlocks p.name.data false body)
    else
      match lookupArg args p.name with
      | none => Except.error (ResolveError.parameter p.name)
      | some v => substituteAll rest args (substOcc p.name.data v.data body)

/-- Look up a function by name in the flat function table. -/
def findFunction (functions : List FunctionData) (name : String) : Option FunctionData :=
  functions.find? (fun f => f.name == name)

/-- Flatten the one-or-many call representation into a list of calls. -/
def callsOf : FunctionCallsData → List FunctionCallData
  | FunctionCallsData.vecFunctionCallData l => l
  | FunctionCallsData.functionCallData c => [c]

/-- Modelled from the spec: argument values of an inner call pass through
the enclosing function's own parameter substitution before the call is
resolved (multi-level forwarding, spec section 3). -/
def substArgs (params : List ParameterDefinitionData) (args : List (String × String)) :
    List (String × String) → Except ResolveError (List (String × String))
  | [] => Except.ok []
  | kv :: rest =>
    match substituteAll params args kv.2.data with
    | Except.error e => Except.error e
    | Except.ok v =>
      match substArgs params args rest with
      | Except.error e => Except.error e
      | Except.ok others => Except.ok ((kv.1, String.mk v) :: others)

/-- Forward the enclosing function's arguments into every call of its
chain. -/
def forwardCalls (params : List ParameterDefinitionData) (args : List (String × String)) :
    List FunctionCallData → Except ResolveError (List FunctionCallData)
  | [] => Except.ok []
  | c :: rest =>
    match substArgs params args c.parameters with
    | Except.error e => Except.error e
    | Except.ok ps =>
      match forwardCalls params args rest with
      | Except.error e => Except.error e
      | Except.ok others => Except.ok ({ function := c.function, parameters := ps } :: others)

mutual

/-- Modelled from the spec: the function registry resolver (spec section
4.3) for one call — lookup by name (a `function` error when absent), then
the function's body: a call-chain recurses with forwarded arguments, an
inline body selects code or revert code (a `callCode` error naming the
function when the selected field is absent) and substitutes the call's
arguments into it. The reference recurses unboundedly on cyclic chains
(spec sections 4.3 and 9); the model makes the depth explicit with fuel
and fails with a `function` error when it is exhausted. -/
def resolveFunctionCall : Nat → List FunctionData → Bool → FunctionCallData →
    Except ResolveError String
  | fuel, functions, revert, call =>
    match findFunction functions call.function with
    | none => Except.error (ResolveError.function call.function)
    | some f =>
      match f.call with
      | some chain =>
        match fuel with
        | 0 => Except.error (ResolveError.function f.name)
        | fuel' + 1 =>
          match forwardCalls (f.parameters.getD []) call.parameters (callsOf chain) with
          | Except.error e => Except.error e
          | Except.ok calls => resolveCallList fuel' functions revert calls
      | none =>
        match (if revert then f.revert_code else f.code) with
        | none => Except.error (ResolveError.callCode f.name)
        | some code =>
          match substituteAll (f.parameters.getD []) call.parameters code.data with
          | Except.error e => Except.error e
          | Except.ok b => Except.ok (String.mk b)

/-- Modelled from the spec: resolve the calls of a chain independently, in
order, and join the non-empty results with a blank line. -/
def resolveCallList : Nat → List FunctionData → Bool → List FunctionCallData →
    Except ResolveError String
  | fuel, functions, revert, calls =>
    match resolveEach fuel functions revert calls with
    | Except.error e => Except.error e
    | Except.ok parts => Except.ok (String.intercalate "\n\n" (parts.filter (fun p => !p.isEmpty)))

/-- Resolve each call of a chain in order, stopping at the first error. -/
def resolveEach : Nat → List FunctionData → Bool → List FunctionCallData →
    Except ResolveError (List String)
  | _, _, _, [] => Except.ok []
  | fuel, functions, revert, c :: rest =>
    match resolveFunctionCall fuel functions revert c with
    | Except.error e => Except.error e
    | Except.ok s =>
      match resolveEach fuel functions revert rest with
      | Except.error e => Except.error e
      | Except.ok others => Except.ok (s :: others)

end

/-- Modelled from the spec: whether the recommendation filter excludes a
script — with a filter active, a script with no recommendation at all is
excluded, and one whose own recommendation is strictly more aggressive
than the filter level is excluded (spec section 4.1). -/
def recommendExcludes (recommend_filter : Option Recommend) (r : Option Recommend) : Bool :=
  match recommend_filter with
  | none => false
  | some f =>
    match r with
    | none => true
    | some x => decide (f.severity < x.severity)

/-- Modelled from the spec: resolve a surviving script's body — a
call-chain goes through the function registry resolver, inline code
selects `code` (or `revertCode` in revert mode; a `callCode` error naming
the script when the selected field is absent) — and format the result with
the formatter. -/
def ScriptData.resolveBody (s : ScriptData) (os : OS) (functions : List FunctionData)
    (fuel : Nat) (revert : Bool) : Except ResolveError String :=
  match s.call with
  | some chain =>
    match resolveCallList fuel functions revert (callsOf chain) with
    | Except.error e => Except.error e
    | Except.ok body => Except.ok (beautify body s.name os revert)
  | none =>
    match (if revert then s.revert_code else s.code) with
    | some c => Except.ok (beautify c s.name os revert)
    | none => Except.error (ResolveError.callCode s.name)

/-- Modelled from the spec: the per-script step of the tree resolver (spec
section 4.1) — the script is excluded (empty output) when a name filter is
present that does not contain its name, or when the recommendation filter
excludes it; otherwise its body is resolved and formatted. -/
def ScriptData.parse (s : ScriptData) (os : OS) (functions : List FunctionData) (fuel : Nat)
    (name_filter : Option (List String)) (revert : Bool) (recommend_filter : Option Recommend) :
    Except ResolveError String :=
  if (match name_filter with
      | some nf => !nf.contains s.name
      | none => false) then Except.ok ""
  else if recommendExcludes recommend_filter s.recommend then Except.ok ""
  else s.resolveBody os functions fuel revert

mutual

/-- Modelled from the spec: the per-category step of the tree resolver —
a category whose own name matches a name-filter entry resolves its subtree
with the name filter lifted; children are resolved depth-first in
declaration order, empty results are dropped and the rest joined with a
blank line. -/
def CategoryData.parse : CategoryData → OS → List FunctionData → Nat → Option (List String) →
    Bool → Option Recommend → Except ResolveError String
  | CategoryData.mk children name _, os, functions, fuel, name_filter, revert, recommend_filter =>
    let nf :=
      match name_filter with
      | some l => if l.contains name then none else some l
      | none => none
    match parseChildren children os functions fuel nf revert recommend_filter with
    | Except.error e => Except.error e
    | Except.ok parts => Except.ok (String.intercalate "\n\n" (parts.filter (fun p => !p.isEmpty)))

/-- Resolve the children of a category in order, stopping at the first
error. -/
def parseChildren : List CategoryOrScriptData → OS → List FunctionData → Nat →
    Option (List String) → Bool → Option Recommend → Except ResolveError (List String)
  | [], _, _, _, _, _, _ => Except.ok []
  | c :: rest, os, functions, fuel, nf, revert, rf =>
    match (match c with
           | CategoryOrScriptData.categoryData cat => cat.parse os functions fuel nf revert rf
           | CategoryOrScriptData.scriptData s => s.parse os functions fuel nf revert rf) with
    | Except.error e => Except.error e
    | Except.ok part =>
      match parseChildren rest os functions fuel nf revert rf with
      | Except.error e => Except.error e
      | Except.ok others => Except.ok (part :: others)

end

/-- Modelled from the spec: map the collection's OS tag to the formatter's
OS (the tags of the shipped collections). -/
def osOfString (s : String) : OS :=
  if s == "windows" then OS.windows
  else if s == "macos" then OS.macOS
  else OS.linux

/-- Modelled from the spec: the resolution entry point (spec sections 4.1
and 6) — resolve the top-level categories in order, drop empty results,
join with blank lines, substitute globals into the start and end
boilerplate and wrap them around the body with blank-line separation; the
date, homepage and version are the external inputs of the global
substitution. -/
def CollectionData.parse (cd : CollectionData) (date homepage version : String) (fuel : Nat)
    (name_filter : Option (List String)) (revert : Bool) (recommend_filter : Option Recommend) :
    Except ResolveError String :=
  let os := osOfString cd.os
  let functions := cd.functions.getD []
  match parseChildren (cd.actions.map CategoryOrScriptData.categoryData) os functions fuel
      name_filter revert recommend_filter with
  | Except.error e => Except.error e
  | Except.ok parts =>
    Except.ok (parse_start_end date homepage version cd.scripting.start_code ++ "\n\n" ++
      String.intercalate "\n\n" (parts.filter (fun p => !p.isEmpty)) ++ "\n\n" ++
      parse_start_end date homepage version cd.scripting.end_code)

/-- The three global variables of the boilerplate substitution. -/
inductive GlobalVar
  | date
  | homepage
  | version
  deriving DecidableEq, Repr

/-- The placeholder spelling of a global variable. -/
def GlobalVar.placeholder : GlobalVar → List Char
  | GlobalVar.date => datePlaceholder
  | GlobalVar.homepage => homepagePlaceholder
  | GlobalVar.version => versionPlaceholder

/-- The substituted value of a global variable. -/
def GlobalVar.value (d h v : List Char) : GlobalVar → List Char
  | GlobalVar.date => d
  | GlobalVar.homepage => h
  | GlobalVar.version => v

/-- A boilerplate built from literal gaps, each followed by a global
placeholder, and a trailing literal gap. -/
def buildTemplate : List (List Char × GlobalVar) → List Char → List Char
  | [], tail => tail
  | c :: rest, tail => c.1 ++ c.2.placeholder ++ buildTemplate rest tail

/-- The same boilerplate with every placeholder replaced by its value and
every other character unchanged. -/
def buildResult (d h v : List Char) : List (List Char × GlobalVar) → List Char → List Char
  | [], tail => tail
  | c :: rest, tail => c.1 ++ c.2.value d h v ++ buildResult d h v rest tail

/-- No occurrence of `pat` can begin inside `w`, whatever follows `w`:
at every start position the overlapping part of the pattern already
mismatches. -/
def noCross (pat w : List Char) : Prop :=
  ∀ j, j < w.length → pfxOf (pat.take (w.length - j)) (w.drop j) = false

instance (pat w : List Char) : Decidable (noCross pat w) := by
  unfold noCross; infer_instance

/-- Rebuilding a string from its characters is the identity. -/
theorem mk_data (s : String) : String.mk s.data = s := rfl

/-- String equality follows from equality of the character lists. -/
theorem string_ext {a b : String} (h : a.data = b.data) : a = b := by
  cases a; cases b; simp at h; subst h; rfl

/-- Appending strings appends their character lists. -/
theorem data_append (a b : String) : (a ++ b).data = a.data ++ b.data := rfl

/-- A character surviving a `dropWhile` was in the list. -/
theorem mem_of_dropWhile {c : Char} {p : Char → Bool} :
    ∀ {l : List Char}, c ∈ l.dropWhile p → c ∈ l := by
  intro l
  induction l with
  | nil => intro h; simp [List.dropWhile] at h
  | cons a t ih =>
    intro h
    rw [List.dropWhile] at h
    cases hp : p a with
    | true => rw [hp] at h; exact List.mem_cons_of_mem a (ih h)
    | false => rw [hp] at h; exact h

/-- A character of a trimmed line was in the line. -/
theorem mem_of_trimList {c : Char} {l : List Char} (h : c ∈ trimList l) : c ∈ l := by
  unfold trimList at h
  rw [List.mem_reverse] at h
  have h2 := mem_of_dropWhile h
  rw [List.mem_reverse] at h2
  exact mem_of_dropWhile h2

/-- Lines produced by the line-break split contain no CR and no LF. -/
theorem splitLineBreaks_no_break :
    ∀ (s : List Char), ∀ l ∈ splitLineBreaks s, '\r' ∉ l ∧ '\n' ∉ l := by
  have key : ∀ (n : Nat) (s : List Char), s.length ≤ n →
      ∀ l ∈ splitLineBreaks s, '\r' ∉ l ∧ '\n' ∉ l := by
    intro n
    induction n with
    | zero =>
      intro s hs l hl
      cases s with
      | nil => simp [splitLineBreaks] at hl; simp [hl]
      | cons c rest => simp at hs
    | succ n ihn =>
      intro s hs l hl
      cases s with
      | nil => simp [splitLineBreaks] at hl; simp [hl]
      | cons c rest =>
        rw [splitLineBreaks] at hl
        by_cases hc : c = '\r'
        · rw [if_pos hc] at hl
          rcases List.mem_cons.mp hl with rfl | hl2
          · simp
          · have hu : (if rest.head? = some '\n' then rest.tail else rest).length ≤ n := by
              split
              · simp only [List.length_tail]
                simp only [List.length_cons] at hs
                omega
              · simp only [List.length_cons] at hs
                omega
            exact ihn _ hu l hl2
        · rw [if_neg hc] at hl
          by_cases hc2 : c = '\n'
          · rw [if_pos hc2] at hl
            rcases List.mem_cons.mp hl with rfl | hl2
            · simp
            · exact ihn rest (by simp only [List.length_cons] at hs; omega) l hl2
          · rw [if_neg hc2] at hl
            have hrest : rest.length ≤ n := by simp only [List.length_cons] at hs; omega
            rcases hsp : splitLineBreaks rest with _ | ⟨l0, ls⟩ <;> rw [hsp] at hl
            · simp at hl
              subst hl
              constructor <;> intro hm <;> rcases List.mem_singleton.mp hm with he
              · exact hc he.symm
              · exact hc2 he.symm
            · rcases List.mem_cons.mp hl with rfl | hl2
              · have h0 := ihn rest hrest l0 (by rw [hsp]; exact List.mem_cons_self _ _)
                constructor <;> intro hm <;> rcases List.mem_cons.mp hm with he | hm2
                · exact hc he.symm
                · exact h0.1 hm2
                · exact hc2 he.symm
                · exact h0.2 hm2
              · exact ihn rest hrest l (by rw [hsp]; exact List.mem_cons_of_mem _ hl2)
  intro s
  exact key s.length s (Nat.le_refl _)

/-- A member of an intersperse is the separator or a member of the list. -/
theorem mem_of_intersperse {sep l : List Char} :
    ∀ {xs : List (List Char)}, l ∈ List.intersperse sep xs → l = sep ∨ l ∈ xs := by
  intro xs
  induction xs with
  | nil => intro h; simp [List.intersperse] at h
  | cons x t ih =>
    intro h
    cases t with
    | nil =>
      simp [List.intersperse] at h
      right; simp [h]
    | cons y ys =>
      have e : List.intersperse sep (x :: y :: ys) = x :: sep :: List.intersperse sep (y :: ys) := rfl
      rw [e] at h
      rcases List.mem_cons.mp h with rfl | h2
      · right; exact List.mem_cons_self _ _
      · rcases List.mem_cons.mp h2 with rfl | h3
        · left; rfl
        · rcases ih h3 with h4 | h4
          · left; exact h4
          · right; exact List.mem_cons_of_mem _ h4

/-- The merged line contains no CR and no LF, whatever the input. -/
theorem mergeLines_no_break (u : List Char) :
    '\r' ∉ mergeLines u ∧ '\n' ∉ mergeLines u := by
  have key : ∀ c : Char, c = '\r' ∨ c = '\n' → c ∉ mergeLines u := by
    intro c hc hmem
    unfold mergeLines at hmem
    unfold List.intercalate at hmem
    obtain ⟨l, hl, hcl⟩ := List.mem_flatten.mp hmem
    rcases mem_of_intersperse hl with rfl | hl2
    · rcases hc with rfl | rfl <;> simp at hcl
    · have hl3 := List.mem_of_mem_filter hl2
      obtain ⟨l0, hl0, rfl⟩ := List.mem_map.mp hl3
      have hc0 := mem_of_trimList hcl
      have := splitLineBreaks_no_break u l0 hl0
      rcases hc with rfl | rfl
      · exact this.1 hc0
      · exact this.2 hc0
  exact ⟨key '\r' (Or.inl rfl), key '\n' (Or.inr rfl)⟩

/-- The empty-input equation of `replaceAll`. -/
theorem replaceAll_nil (pat rep : List Char) : replaceAll pat rep [] = [] := by
  rw [replaceAll]

/-- The matching-head equation of `replaceAll`. -/
theorem replaceAll_cons_match (pat rep : List Char) (c : Char) (t : List Char)
    (hne : pat.isEmpty = false) (h : pfxOf pat (c :: t) = true) :
    replaceAll pat rep (c :: t) = rep ++ replaceAll pat rep ((c :: t).drop pat.length) := by
  rw [replaceAll]
  have hc : ((!pat.isEmpty) && pfxOf pat (c :: t)) = true := by simp [hne, h]
  rw [dif_pos hc]

/-- The non-matching-head equation of `replaceAll`. -/
theorem replaceAll_cons_nomatch (pat rep : List Char) (c : Char) (t : List Char)
    (h : pfxOf pat (c :: t) = false) :
    replaceAll pat rep (c :: t) = c :: replaceAll pat rep t := by
  rw [replaceAll]
  have hc : ¬ ((!pat.isEmpty) && pfxOf pat (c :: t)) = true := by simp [h]
  rw [dif_neg hc]

/-- A list is a prefix of itself followed by anything. -/
theorem pfxOf_append_self (pat s : List Char) : pfxOf pat (pat ++ s) = true := by
  induction pat with
  | nil => rfl
  | cons p ps ih => simp [pfxOf, ih]

/-- A prefix of an append restricts to a prefix of the first part. -/
theorem pfxOf_take {pat : List Char} :
    ∀ {w s : List Char}, pfxOf pat (w ++ s) = true → pfxOf (pat.take w.length) w = true := by
  intro w
  induction w generalizing pat with
  | nil => intro s h; simp [pfxOf]
  | cons c w' ih =>
    intro s h
    cases pat with
    | nil => simp [pfxOf]
    | cons p ps =>
      rw [List.cons_append, pfxOf, Bool.and_eq_true] at h
      rw [List.length_cons, List.take_succ_cons, pfxOf, Bool.and_eq_true]
      exact ⟨h.1, ih h.2⟩

/-- When no occurrence of the pattern can begin inside `w`, replacement
passes `w` through and continues behind it. -/
theorem replaceAll_append_of_noCross {pat : List Char} (rep : List Char) :
    ∀ (w s : List Char), noCross pat w →
      replaceAll pat rep (w ++ s) = w ++ replaceAll pat rep s := by
  intro w
  induction w with
  | nil => intro s _; simp
  | cons c w' ih =>
    intro s hnc
    have h0 := hnc 0 (by simp)
    simp only [Nat.sub_zero, List.drop_zero] at h0
    have hno : pfxOf pat (c :: (w' ++ s)) = false := by
      cases hb : pfxOf pat (c :: (w' ++ s)) with
      | false => rfl
      | true =>
        have h1 := pfxOf_take (w := c :: w') (s := s) (by rw [List.cons_append]; exact hb)
        rw [h1] at h0
        cases h0
    have hnc' : noCross pat w' := by
      intro j hj
      have h2 := hnc (j + 1) (by simp only [List.length_cons]; omega)
      simp only [List.length_cons, List.drop_succ_cons] at h2
      have e : w'.length + 1 - (j + 1) = w'.length - j := by omega
      rw [e] at h2
      exact h2
    rw [List.cons_append, replaceAll_cons_nomatch pat rep c (w' ++ s) hno, ih s hnc',
      List.cons_append]

/-- When no occurrence of the pattern can begin inside `w`, replacement
leaves `w` unchanged. -/
theorem replaceAll_eq_self {pat : List Char} (rep : List Char) {w : List Char}
    (h : noCross pat w) : replaceAll pat rep w = w := by
  have e := replaceAll_append_of_noCross rep w [] h
  rw [List.append_nil] at e
  rw [e, replaceAll_nil, List.append_nil]

/-- Replacement fires on an occurrence of the pattern at the head. -/
theorem replaceAll_pat_append (pat rep s : List Char) (hne : pat.isEmpty = false) :
    replaceAll pat rep (pat ++ s) = rep ++ replaceAll pat rep s := by
  cases pat with
  | nil => simp at hne
  | cons p ps =>
    rw [List.cons_append,
      replaceAll_cons_match (p :: ps) rep p (ps ++ s) hne
        (by rw [← List.cons_append]; exact pfxOf_append_self _ _)]
    rw [← List.cons_append, List.drop_left]

/-- A pattern starting with an open brace cannot begin inside a
brace-free block. -/
theorem noCross_of_headBrace {ps w : List Char} (hw : '\x7b' ∉ w) :
    noCross ('\x7b' :: ps) w := by
  intro j hj
  obtain ⟨c, u, he⟩ : ∃ c u, w.drop j = c :: u := by
    cases hd : w.drop j with
    | nil =>
      have : w.length - j = 0 := by rw [← List.length_drop, hd]; rfl
      omega
    | cons c u => exact ⟨c, u, rfl⟩
  have hc : c ∈ w := List.drop_subset j w (by rw [he]; exact List.mem_cons_self _ _)
  obtain ⟨k, hk⟩ : ∃ k, w.length - j = k + 1 := ⟨w.length - j - 1, by omega⟩
  rw [he, hk, List.take_succ_cons, pfxOf]
  have hb : ('\x7b' == c) = false := by
    rw [beq_eq_false_iff_ne]
    intro hcc
    exact hw (hcc ▸ hc)
  simp [hb]

/-- C4: for every input text, the `escapeDoubleQuotes` pipe returns the
input with every double-quote character replaced by the escape sequence
double-quote, caret, double-quote, double-quote, and all other characters
unchanged; in particular on the documented input `"Hello"` it yields
`"^""Hello"^""`. -/
theorem escapeDoubleQuotes_spec :
    (∀ t : List Char,
        piperList "escapeDoubleQuotes" t =
          (t.map (fun c => if c = '"' then escSeq else [c])).flatten) ∧
      piper "escapeDoubleQuotes" "\"Hello\"" = "\"^\"\"Hello\"^\"\"" := by
  constructor
  · intro t
    show replaceChar '"' escSeq t = _
    induction t with
    | nil => rfl
    | cons c rest ih => simp [replaceChar, ih]
  · rfl

/-- C3: for every code string, display name, OS and revert flag, the
formatter returns (with no failure mode or side effect) a fixed-width
banner — the comment marker is `::` when the OS is Windows and `#`
otherwise — whose middle line centers the display name with `" (revert)"`
appended exactly when revert is true, followed by an echo line announcing
that name, the code body verbatim, and a closing banner rule. -/
theorem beautify_format :
    ∀ (code name : String) (os : OS) (revert : Bool),
      beautify code name os revert =
        (if os = OS.windows then "::" else "#") ++ " " ++ String.mk (List.replicate 60 '-') ++
          "\n" ++ (if os = OS.windows then "::" else "#") ++ " " ++
          fmtCenter '-' 60 (name ++ (if revert then " (revert)" else "")) ++ "\n" ++
          (if os = OS.windows then "::" else "#") ++ " " ++ String.mk (List.replicate 60 '-') ++
          "\necho --- " ++ (name ++ (if revert then " (revert)" else "")) ++ "\n" ++ code ++
          "\n" ++ (if os = OS.windows then "::" else "#") ++ " " ++
          String.mk (List.replicate 60 '-') := by
  intro code name os revert
  have hrule : fmtCenter '-' 60 "" = String.mk (List.replicate 60 '-') := by decide
  have mkd : ∀ l : List Char, (String.mk l).data = l := fun _ => rfl
  have d1 : (":: " : String).data = ':' :: ':' :: ' ' :: [] := rfl
  have d2 : ("\n:: " : String).data = '\n' :: ':' :: ':' :: ' ' :: [] := rfl
  have d3 : ("::" : String).data = ':' :: ':' :: [] := rfl
  have d4 : (" " : String).data = ' ' :: [] := rfl
  have d5 : ("\n" : String).data = '\n' :: [] := rfl
  have d6 : ("\necho --- " : String).data =
    '\n' :: 'e' :: 'c' :: 'h' :: 'o' :: ' ' :: '-' :: '-' :: '-' :: ' ' :: [] := rfl
  have d7 : ("# " : String).data = '#' :: ' ' :: [] := rfl
  have d8 : ("\n# " : String).data = '\n' :: '#' :: ' ' :: [] := rfl
  have d9 : ("#" : String).data = '#' :: [] := rfl
  have d10 : ("echo --- " : String).data =
    'e' :: 'c' :: 'h' :: 'o' :: ' ' :: '-' :: '-' :: '-' :: ' ' :: [] := rfl
  cases os <;> cases revert <;>
    (apply string_ext;
     simp [beautify, hrule, data_append, mkd, d1, d2, d3, d4, d5, d6, d7, d8, d9, d10,
       List.append_assoc])

/-- C5: for every input text, the `inlinePowerShell` pipe returns a single
logical line: the result contains no carriage-return and no line-feed
characters, because after comment normalization, here-string conversion
and backtick-continuation merging, all remaining non-empty trimmed lines
are joined with the separator `"; "`. -/
theorem inlinePowerShell_single_line :
    ∀ t : String,
      '\r' ∉ (piper "inlinePowerShell" t).data ∧ '\n' ∉ (piper "inlinePowerShell" t).data := by
  intro t
  have e : (piper "inlinePowerShell" t).data =
      mergeLines (mergeBackticks (convertHereStrings (normalizeComments t.data))) := rfl
  rw [e]
  exact mergeLines_no_break _

/-- C6: for every pipe name other than `escapeDoubleQuotes` and
`inlinePowerShell`, and every input text, the pipe dispatcher returns the
input text unchanged and never produces an error. -/
theorem piper_unknown_identity :
    ∀ (pipe text : String), pipe ≠ "escapeDoubleQuotes" → pipe ≠ "inlinePowerShell" →
      piper pipe text = text := by
  intro pipe text h1 h2
  have e : piperList pipe text.data = text.data := by
    unfold piperList
    split
    · exact absurd rfl h1
    · exact absurd rfl h2
    · rfl
  calc piper pipe text = String.mk (piperList pipe text.data) := rfl
    _ = String.mk text.data := by rw [e]
    _ = text := mk_data text

/-- Witness for C6 at the concrete pipe name `trim` and input `abc`. -/
theorem piper_unknown_identity_witness :
    ("trim" ≠ "escapeDoubleQuotes" ∧ "trim" ≠ "inlinePowerShell") ∧ piper "trim" "abc" = "abc" :=
  ⟨⟨by decide, by decide⟩, piper_unknown_identity "trim" "abc" (by decide) (by decide)⟩

/-- C8: the pipe dispatcher is total — for every pipe name and input it
returns a string; the documented panic for invalid regex patterns is
unreachable, because every fixed pattern literal it compiles is valid, so
the checked dispatcher (whose compilation steps can fail) always succeeds
and agrees with the plain one. -/
theorem piper_total_no_panic :
    ∀ (pipe : String) (text : List Char), piperChecked pipe text = some (piperList pipe text) := by
  intro pipe text
  by_cases h1 : pipe = "escapeDoubleQuotes"
  · subst h1; rfl
  by_cases h2 : pipe = "inlinePowerShell"
  · subst h2; rfl
  have e1 : piperChecked pipe text = some text := by
    unfold piperChecked
    split
    · exact absurd rfl h1
    · exact absurd rfl h2
    · rfl
  have e2 : piperList pipe text = text := by
    unfold piperList
    split
    · exact absurd rfl h1
    · exact absurd rfl h2
    · rfl
  rw [e1, e2]

/-- C9: the `escapeDoubleQuotes` pipe is not idempotent — on the
one-character input consisting of a double quote, applying the pipe twice
differs from applying it once, since the inserted escape sequence itself
contains double quotes that the second application escapes again. -/
theorem escapeDoubleQuotes_not_idempotent :
    piper "escapeDoubleQuotes" (piper "escapeDoubleQuotes" "\"") ≠
      piper "escapeDoubleQuotes" "\"" := by
  decide

/-- C1: for every script visited by the tree resolver while a
recommendation filter of level L is active (and no name filter): the
script is excluded — contributes empty output — exactly when it has no
recommendation at all or its own recommendation is strictly more
aggressive than L; equivalently, the filter admits exactly the scripts
whose recommendation is at least as conservative as L, and an admitted
script resolves to its formatted body. -/
theorem recommend_filter_admits_conservative :
    ∀ (s : ScriptData) (os : OS) (functions : List FunctionData) (fuel : Nat)
      (revert : Bool) (level : Recommend),
      s.parse os functions fuel none revert (some level) =
        (match s.recommend with
         | some r =>
           if r.atLeastAsConservativeAs level then s.resolveBody os functions fuel revert
           else Except.ok ""
         | none => Except.ok "") := by
  intro s os functions fuel revert level
  unfold ScriptData.parse recommendExcludes
  cases hr : s.recommend with
  | none => simp
  | some r =>
    cases r <;> cases level <;>
      simp [Recommend.severity, Recommend.atLeastAsConservativeAs]

/-- C2: resolving a script whose call-chain is absent and whose selected
code field (code normally, revertCode under revert) is absent yields a
fatal `CallCode` error naming the script — in particular a script with
only `code` resolved with revert true fails so — and a resolved function
in the same situation likewise yields a `CallCode` error naming the
function. -/
theorem missing_selected_code_is_callcode :
    (∀ (s : ScriptData) (os : OS) (functions : List FunctionData) (fuel : Nat) (revert : Bool),
        s.call = none → (if revert then s.revert_code else s.code) = none →
        s.parse os functions fuel none revert none =
          Except.error (ResolveError.callCode s.name)) ∧
      (∀ (fns : List FunctionData) (f : FunctionData) (fuel : Nat) (revert : Bool)
          (c : FunctionCallData),
        findFunction fns c.function = some f → f.call = none →
        (if revert then f.revert_code else f.code) = none →
        resolveFunctionCall fuel fns revert c =
          Except.error (ResolveError.callCode f.name)) := by
  constructor
  · intro s os functions fuel revert hcall hsel
    unfold ScriptData.parse recommendExcludes ScriptData.resolveBody
    simp [hcall, hsel]
  · intro fns f fuel revert c hf hfc hsel
    unfold resolveFunctionCall
    simp [hf, hfc, hsel]

/-- Witness for C2: a concrete inline script defining only `code`,
resolved in revert mode, fails with a `CallCode` error naming it. -/
theorem missing_selected_code_is_callcode_witness :
    (ScriptData.mk "Clear bash history" (some "rm -f ~/.bash_history") none none none
        none).parse OS.linux [] 0 none true none =
      Except.error (ResolveError.callCode "Clear bash history") :=
  missing_selected_code_is_callcode.1
    (ScriptData.mk "Clear bash history" (some "rm -f ~/.bash_history") none none none none)
    OS.linux [] 0 true rfl rfl

/-- The date placeholder cannot begin inside a brace-free block. -/
theorem noCross_datePlaceholder {w : List Char} (hw : '\x7b' ∉ w) :
    noCross datePlaceholder w := by
  rw [show datePlaceholder = '\x7b' :: "\x7b $date \x7d\x7d".data from rfl]
  exact noCross_of_headBrace hw

/-- The homepage placeholder cannot begin inside a brace-free block. -/
theorem noCross_homepagePlaceholder {w : List Char} (hw : '\x7b' ∉ w) :
    noCross homepagePlaceholder w := by
  rw [show homepagePlaceholder = '\x7b' :: "\x7b $homepage \x7d\x7d".data from rfl]
  exact noCross_of_headBrace hw

/-- The version placeholder cannot begin inside a brace-free block. -/
theorem noCross_versionPlaceholder {w : List Char} (hw : '\x7b' ∉ w) :
    noCross versionPlaceholder w := by
  rw [show versionPlaceholder = '\x7b' :: "\x7b $version \x7d\x7d".data from rfl]
  exact noCross_of_headBrace hw

/-- C7: for every start or end boilerplate whose open braces all belong
to exact global placeholders, and brace-free substituted values,
global-variable substitution replaces every occurrence of the date
placeholder with the date, the homepage placeholder with the homepage and
the version placeholder with the version, leaving all other characters of
the boilerplate unchanged. -/
theorem parse_start_end_substitutes_globals :
    ∀ (d h v : String) (chunks : List (List Char × GlobalVar)) (tail : List Char),
      '\x7b' ∉ d.data → '\x7b' ∉ h.data → '\x7b' ∉ v.data →
      (∀ p ∈ chunks, '\x7b' ∉ p.1) → '\x7b' ∉ tail →
      parse_start_end d h v (String.mk (buildTemplate chunks tail)) =
        String.mk (buildResult d.data h.data v.data chunks tail) := by
  intro d h v chunks tail hD hH hV hgaps htail
  have main : ∀ (chs : List (List Char × GlobalVar)) (tl : List Char),
      (∀ p ∈ chs, '\x7b' ∉ p.1) → '\x7b' ∉ tl →
      replaceAll versionPlaceholder v.data
        (replaceAll homepagePlaceholder h.data
          (replaceAll datePlaceholder d.data (buildTemplate chs tl))) =
        buildResult d.data h.data v.data chs tl := by
    intro chs
    induction chs with
    | nil =>
      intro tl _ htl
      simp only [buildTemplate, buildResult]
      rw [replaceAll_eq_self d.data (noCross_datePlaceholder htl),
        replaceAll_eq_self h.data (noCross_homepagePlaceholder htl),
        replaceAll_eq_self v.data (noCross_versionPlaceholder htl)]
    | cons ch rest ih =>
      intro tl hgs htl
      obtain ⟨gap, g⟩ := ch
      have hgap : '\x7b' ∉ gap := hgs (gap, g) (List.mem_cons_self _ _)
      have hrest : ∀ p ∈ rest, '\x7b' ∉ p.1 := fun p hp => hgs p (List.mem_cons_of_mem _ hp)
      cases g with
      | date =>
        have e1 : buildTemplate ((gap, GlobalVar.date) :: rest) tl =
            gap ++ (datePlaceholder ++ buildTemplate rest tl) := by
          simp [buildTemplate, GlobalVar.placeholder, List.append_assoc]
        rw [e1,
          replaceAll_append_of_noCross d.data gap _
            (noCross_datePlaceholder hgap),
          replaceAll_pat_append datePlaceholder d.data _ (by decide),
          replaceAll_append_of_noCross h.data gap _
            (noCross_homepagePlaceholder hgap),
          replaceAll_append_of_noCross h.data d.data _
            (noCross_homepagePlaceholder hD),
          replaceAll_append_of_noCross v.data gap _
            (noCross_versionPlaceholder hgap),
          replaceAll_append_of_noCross v.data d.data _
            (noCross_versionPlaceholder hD),
          ih tl hrest htl]
        simp [buildResult, GlobalVar.value, List.append_assoc]
      | homepage =>
        have e1 : buildTemplate ((gap, GlobalVar.homepage) :: rest) tl =
            gap ++ (homepagePlaceholder ++ buildTemplate rest tl) := by
          simp [buildTemplate, GlobalVar.placeholder, List.append_assoc]
        rw [e1,
          replaceAll_append_of_noCross d.data gap _
            (noCross_datePlaceholder hgap),
          replaceAll_append_of_noCross d.data homepagePlaceholder _ (by decide),
          replaceAll_append_of_noCross h.data gap _
            (noCross_homepagePlaceholder hgap),
          replaceAll_pat_append homepagePlaceholder h.data _ (by decide),
          replaceAll_append_of_noCross v.data gap _
            (noCross_versionPlaceholder hgap),
          replaceAll_append_of_noCross v.data h.data _
            (noCross_versionPlaceholder hH),
          ih tl hrest htl]
        simp [buildResult, GlobalVar.value, List.append_assoc]
      | version =>
        have e1 : buildTemplate ((gap, GlobalVar.version) :: rest) tl =
            gap ++ (versionPlaceholder ++ buildTemplate rest tl) := by
          simp [buildTemplate, GlobalVar.placeholder, List.append_assoc]
        rw [e1,
          replaceAll_append_of_noCross d.data gap _
            (noCross_datePlaceholder hgap),
          replaceAll_append_of_noCross d.data versionPlaceholder _ (by decide),
          replaceAll_append_of_noCross h.data gap _
            (noCross_homepagePlaceholder hgap),
          replaceAll_append_of_noCross h.data versionPlaceholder _ (by decide),
          replaceAll_append_of_noCross v.data gap _
            (noCross_versionPlaceholder hgap),
          replaceAll_pat_append versionPlaceholder v.data _ (by decide),
          ih tl hrest htl]
        simp [buildResult, GlobalVar.value, List.append_assoc]
  have e : parse_start_end d h v (String.mk (buildTemplate chunks tail)) =
      String.mk (replaceAll versionPlaceholder v.data
        (replaceAll homepagePlaceholder h.data
          (replaceAll datePlaceholder d.data (buildTemplate chunks tail)))) := rfl
  rw [e, main chunks tail hgaps htail]

/-- Witness for C7 at a concrete boilerplate, date, homepage and
version. -/
theorem parse_start_end_substitutes_globals_witness :
    ('\x7b' ∉ ("Mon, 01 Jan" : String).data ∧ '\x7b' ∉ ("https://example.org" : String).data ∧
        '\x7b' ∉ ("0.2.3" : String).data ∧
        (∀ p ∈ [("Generated by ".data, GlobalVar.homepage),
          (" v".data, GlobalVar.version), (" on ".data, GlobalVar.date)], '\x7b' ∉ p.1) ∧
        '\x7b' ∉ ".".data) ∧
      parse_start_end "Mon, 01 Jan" "https://example.org" "0.2.3"
          (String.mk (buildTemplate [("Generated by ".data, GlobalVar.homepage),
            (" v".data, GlobalVar.version), (" on ".data, GlobalVar.date)] ".".data)) =
        String.mk (buildResult "Mon, 01 Jan".data "https://example.org".data "0.2.3".data
          [("Generated by ".data, GlobalVar.homepage), (" v".data, GlobalVar.version),
            (" on ".data, GlobalVar.date)] ".".data) :=
  ⟨⟨by decide, by decide, by decide, by decide, by decide⟩,
    parse_start_end_substitutes_globals "Mon, 01 Jan" "https://example.org" "0.2.3"
      [("Generated by ".data, GlobalVar.homepage), (" v".data, GlobalVar.version),
        (" on ".data, GlobalVar.date)] ".".data
      (by decide) (by decide) (by decide) (by decide) (by decide)⟩

/-- C10: global-variable substitution matches only the exact placeholder
spellings with single inner spaces — a variant with missing or doubled
inner whitespace is left unchanged for every choice of the substituted
values, while the exact spelling is replaced. -/
theorem global_placeholder_exact_spelling :
    ∀ d h v : String,
      parse_start_end d h v "\x7b\x7b$version\x7d\x7d" = "\x7b\x7b$version\x7d\x7d" ∧
      parse_start_end d h v "\x7b\x7b  $version \x7d\x7d" = "\x7b\x7b  $version \x7d\x7d" ∧
      parse_start_end d h v "\x7b\x7b $version \x7d\x7d" = v := by
  intro d h v
  refine ⟨?_, ?_, ?_⟩
  · show String.mk (replaceAll versionPlaceholder v.data
      (replaceAll homepagePlaceholder h.data
        (replaceAll datePlaceholder d.data "\x7b\x7b$version\x7d\x7d".data))) = _
    rw [replaceAll_eq_self d.data (by decide), replaceAll_eq_self h.data (by decide),
      replaceAll_eq_self v.data (by decide)]
  · show String.mk (replaceAll versionPlaceholder v.data
      (replaceAll homepagePlaceholder h.data
        (replaceAll datePlaceholder d.data "\x7b\x7b  $version \x7d\x7d".data))) = _
    rw [replaceAll_eq_self d.data (by decide), replaceAll_eq_self h.data (by decide),
      replaceAll_eq_self v.data (by decide)]
  · show String.mk (replaceAll versionPlaceholder v.data
      (replaceAll homepagePlaceholder h.data
        (replaceAll datePlaceholder d.data "\x7b\x7b $version \x7d\x7d".data))) = _
    rw [replaceAll_eq_self d.data (by decide), replaceAll_eq_self h.data (by decide)]
    have e : "\x7b\x7b $version \x7d\x7d".data = versionPlaceholder ++ [] := by decide
    rw [e, replaceAll_pat_append versionPlaceholder v.data [] (by decide), replaceAll_nil,
      List.append_nil]

end PrivacySexy
